import Mathlib

/-!
Shallow embedding of the AI_Interview_Pro front-end's realtime audio
session logic (the `Interview` component in src/types.ts) and its chat
logic (src/components/Chatbot.tsx), together with theorems checking the
specification's claims about them.  Times, durations and audio samples
are modelled as rationals; JavaScript strings as Lean strings.
-/

/-- Embeds JavaScript `String.prototype.trim`: drop leading and trailing
whitespace characters. -/
def jsTrim (s : String) : String :=
  ⟨((s.data.dropWhile Char.isWhitespace).reverse.dropWhile Char.isWhitespace).reverse⟩

/-- Truncation of a rational toward zero; JavaScript's ToInt16 conversion
first truncates its float operand this way. -/
def truncQ (x : ℚ) : ℤ := if 0 ≤ x then ⌊x⌋ else ⌈x⌉

/-- JavaScript ToInt16 wraparound: reduce modulo 2^16 into the signed
16-bit window [-32768, 32767]. -/
def toInt16 (n : ℤ) : ℤ :=
  if n % 65536 < 32768 then n % 65536 else n % 65536 - 65536

/-- Embeds `int16[i] = inputData[i] * 32767` from the `onaudioprocess`
handler in src/types.ts: multiply the float sample by 32767, then store
into an `Int16Array` slot, which truncates and wraps modulo 2^16. -/
def encodeSample (s : ℚ) : ℤ := toInt16 (truncQ (s * 32767))

/-- Modelled from the spec: the decoding half of the PCM codec lives in
`src/utils`, which is absent from the snapshot (only imported by
src/types.ts).  Per the spec's codec contract, decoding recovers the
signed 16-bit sample and reconstruction inverts encode's multiply by the
max positive 16-bit value. -/
def decodeSample (n : ℤ) : ℚ := (n : ℚ) / 32767

/-- Speaker tag of a transcript entry (src/types.ts `TranscriptEntry`). -/
inductive Speaker where
  | user
  | model
deriving DecidableEq

/-- `TranscriptEntry` from src/types.ts. -/
structure TranscriptEntry where
  speaker : Speaker
  text : String
deriving DecidableEq

/-- The fields of a `LiveServerMessage` that `handleLiveMessage` reads.
`audio` is the duration of the decoded inline audio chunk, `none` when
the message carries no chunk (or no output context is active). -/
structure LiveMsg where
  inputTranscription : Option String
  outputTranscription : Option String
  turnComplete : Bool
  audio : Option ℚ
  interrupted : Bool

/-- The mutable session state read and written by `handleLiveMessage`:
the two transcription accumulators, the talking indicator, the
transcript log, the playback cursor (`nextStartTimeRef`), the active
source set (`sourcesRef`, as a list of handle ids) and a counter for
fresh handle ids. -/
structure InterviewS where
  inputAcc : String
  outputAcc : String
  isTalking : Bool
  transcripts : List TranscriptEntry
  nextStartTime : ℚ
  sources : List Nat
  nextId : Nat
deriving DecidableEq

/-- What one call of `handleLiveMessage` did: the new state, the
scheduled playback (handle id, start time) if the message carried audio,
and the handles force-stopped by an interruption. -/
structure HandleResult where
  state : InterviewS
  scheduled : Option (Nat × ℚ)
  stopped : List Nat
deriving DecidableEq

/-- Embeds `handleLiveMessage` from src/types.ts, in source order:
input transcription (lines 157-161), output transcription (162-165),
turn completion (167-177), inline audio scheduling (183-200), then
interruption (202-209).  `clock` is `outputAudioContext.currentTime` at
the moment of the call. -/
def handleLiveMessage (clock : ℚ) (msg : LiveMsg) (s0 : InterviewS) : HandleResult :=
  let s1 := match msg.inputTranscription with
    | some t => { s0 with inputAcc := s0.inputAcc ++ t, isTalking := true }
    | none => s0
  let s2 := match msg.outputTranscription with
    | some t => { s1 with outputAcc := s1.outputAcc ++ t }
    | none => s1
  let s3 := if msg.turnComplete then
      let t1 := if jsTrim s2.inputAcc ≠ "" then
          s2.transcripts ++ [⟨Speaker.user, jsTrim s2.inputAcc⟩] else s2.transcripts
      let t2 := if jsTrim s2.outputAcc ≠ "" then
          t1 ++ [⟨Speaker.model, jsTrim s2.outputAcc⟩] else t1
      { s2 with transcripts := t2, inputAcc := "", outputAcc := "", isTalking := false }
    else s2
  let p := match msg.audio with
    | some dur =>
        let start := max s3.nextStartTime clock
        ({ s3 with nextStartTime := start + dur,
                   sources := s3.sources.insert s3.nextId,
                   nextId := s3.nextId + 1 }, some (s3.nextId, start))
    | none => (s3, none)
  if msg.interrupted then
    ⟨{ p.1 with sources := [], nextStartTime := 0 }, p.2, p.1.sources⟩
  else
    ⟨p.1, p.2, []⟩

/-- A server message carrying only an inline audio chunk of duration `d`. -/
def audioMsg (d : ℚ) : LiveMsg :=
  { inputTranscription := none, outputTranscription := none,
    turnComplete := false, audio := some d, interrupted := false }

/-- Start times assigned by feeding `handleLiveMessage` a consecutive
sequence of audio-only messages; each element of `segs` is the pair
(output clock time at arrival, chunk duration). -/
def runAudioStarts : InterviewS → List (ℚ × ℚ) → List ℚ
  | _, [] => []
  | s, (clk, d) :: rest =>
    let r := handleLiveMessage clk (audioMsg d) s
    (match r.scheduled with
      | some (_, st) => [st]
      | none => []) ++ runAudioStarts r.state rest

/-- The start-time recurrence of the playback scheduler in isolation:
each chunk starts at `max cursor clock` and the cursor advances by the
chunk's duration. -/
def schedStarts : ℚ → List (ℚ × ℚ) → List ℚ
  | _, [] => []
  | c, (clk, d) :: rest =>
    let st := max c clk
    st :: schedStarts (st + d) rest

/-- Lifecycle events touching the active source set (`sourcesRef`):
a source is added when scheduled (line 199 of src/types.ts), deleted by
its `ended` listener (lines 193-195), and the whole set is cleared by an
interruption (lines 202-209) or by `stopAudioProcessing` (lines 72-75). -/
inductive SourceEvent where
  | schedule (h : Nat)
  | ended (h : Nat)
  | interrupt
  | teardown
deriving DecidableEq

/-- Effect of one lifecycle event on the active source set.  `insert` is
a no-op when the handle is already present and `erase` when it is
absent, matching JavaScript `Set.add` and `Set.delete`. -/
def stepSources (s : List Nat) : SourceEvent → List Nat
  | SourceEvent.schedule h => s.insert h
  | SourceEvent.ended h => s.filter (fun x => x != h)
  | SourceEvent.interrupt => []
  | SourceEvent.teardown => []

/-- How many events of the trace actually remove handle `h` from the
active source set (membership before, non-membership after). -/
def removeCount (h : Nat) : List Nat → List SourceEvent → Nat
  | _, [] => 0
  | s, e :: es =>
    let s' := stepSources s e
    (if h ∈ s ∧ h ∉ s' then 1 else 0) + removeCount h s' es

/-- An event that takes handle `h` out of the set: its natural-completion
callback, or a forced stop by interruption or teardown. -/
def isStopper (h : Nat) (e : SourceEvent) : Prop :=
  e = SourceEvent.ended h ∨ e = SourceEvent.interrupt ∨ e = SourceEvent.teardown

instance (h : Nat) (e : SourceEvent) : Decidable (isStopper h e) := by
  unfold isStopper; infer_instance

/-- UI states of the interview session controller (src/types.ts
`InterviewState`). -/
inductive InterviewState where
  | setup
  | in_progress
  | finished
  | error
deriving DecidableEq

/-- What one call of `startInterview` did: the values assigned to the
interview-state variable in order, the resulting state, the surfaced
error message, whether `ai.live.connect` was invoked, and whether a
session promise was stored. -/
structure StartResult where
  visited : List InterviewState
  final : InterviewState
  errorMsg : Option String
  connectAttempted : Bool
  sessionCreated : Bool
deriving DecidableEq

/-- Embeds `startInterview` from src/types.ts, called from the `setup`
state.  The validation guard (lines 79-82) runs first; otherwise the
state is set to `in_progress` (line 85) before the microphone request,
and on denial the catch block (lines 149-153) surfaces a message and
sets the `error` state without ever reaching `ai.live.connect`. -/
def startInterview (jobRole jobDescription : String) (micGranted : Bool) : StartResult :=
  if jsTrim jobRole = "" ∨ jsTrim jobDescription = "" then
    { visited := [], final := InterviewState.setup,
      errorMsg := some "Please fill in both job role and description.",
      connectAttempted := false, sessionCreated := false }
  else if micGranted then
    { visited := [InterviewState.in_progress], final := InterviewState.in_progress,
      errorMsg := none, connectAttempted := true, sessionCreated := true }
  else
    { visited := [InterviewState.in_progress, InterviewState.error],
      final := InterviewState.error,
      errorMsg := some "Could not access microphone. Please check permissions.",
      connectAttempted := false, sessionCreated := false }

/-- Message sender tag (src/types.ts `ChatMessage`). -/
inductive Sender where
  | user
  | bot
deriving DecidableEq

/-- `GroundingSource` from src/types.ts. -/
structure GroundingSource where
  title : String
  uri : String
deriving DecidableEq

/-- `ChatMessage` from src/types.ts; the optional `sources` field is
modelled as a list, empty when absent. -/
structure ChatMessage where
  sender : Sender
  text : String
  sources : List GroundingSource
deriving DecidableEq

/-- The Chatbot component state read and written by `sendMessage`:
whether `createChatSession` has populated the chat handle, the message
list, the input field and the loading flag. -/
structure ChatS where
  chatExists : Bool
  messages : List ChatMessage
  input : String
  isLoading : Bool
deriving DecidableEq

/-- Result of one call of `sendMessage`: the new component state and
whether a streaming request was issued. -/
structure SendResult where
  state : ChatS
  requestIssued : Bool
deriving DecidableEq

/-- Embeds the synchronous head of `sendMessage`
(src/components/Chatbot.tsx lines 47-56): bail out when the trimmed
input is empty or no chat session exists; otherwise append the user
message (untrimmed input) and an empty bot message, clear the input,
raise the loading flag and issue the streaming request. -/
def sendMessage (s : ChatS) : SendResult :=
  if jsTrim s.input = "" ∨ s.chatExists = false then
    ⟨s, false⟩
  else
    ⟨{ s with
        messages := s.messages ++
          [⟨Sender.user, s.input, []⟩, ⟨Sender.bot, "", []⟩],
        input := "",
        isLoading := true }, true⟩

/-- Embeds the per-chunk update of `sendMessage`
(src/components/Chatbot.tsx lines 78-83): map over the message list,
replacing only the entry at index `length - 1` with the accumulated text
and sources. -/
def applyChunk (msgs : List ChatMessage) (fullText : String)
    (allSources : List GroundingSource) : List ChatMessage :=
  msgs.mapIdx fun i m =>
    if i = msgs.length - 1 then { m with text := fullText, sources := allSources } else m

/-! ## Helper lemmas -/

lemma truncQ_gt (x : ℚ) : x - 1 < (truncQ x : ℚ) := by
  unfold truncQ
  split
  · exact Int.sub_one_lt_floor x
  · have := Int.le_ceil x
    linarith

lemma truncQ_lt (x : ℚ) : (truncQ x : ℚ) < x + 1 := by
  unfold truncQ
  split
  · have := Int.floor_le x
    linarith
  · exact Int.ceil_lt_add_one x

lemma truncQ_range (x : ℚ) (h1 : -32767 ≤ x) (h2 : x ≤ 32767) :
    -32767 ≤ truncQ x ∧ truncQ x ≤ 32767 := by
  unfold truncQ
  split
  case isTrue hx =>
    constructor
    · have h0 : 0 ≤ ⌊x⌋ := Int.floor_nonneg.mpr hx
      omega
    · have h := Int.floor_le x
      have : ((⌊x⌋ : ℚ)) ≤ 32767 := le_trans h h2
      exact_mod_cast this
  case isFalse hx =>
    constructor
    · have h := Int.le_ceil x
      have : (-32767 : ℚ) ≤ (⌈x⌉ : ℚ) := le_trans h1 h
      exact_mod_cast this
    · have h0 : ⌈x⌉ ≤ 0 := Int.ceil_le.mpr (by exact_mod_cast le_of_not_le hx)
      omega

lemma toInt16_range (n : ℤ) : -32768 ≤ toInt16 n ∧ toInt16 n < 32768 := by
  unfold toInt16
  split <;> omega

lemma toInt16_emod (n : ℤ) : toInt16 n % 65536 = n % 65536 := by
  unfold toInt16
  split <;> omega

lemma toInt16_eq_of_range (n : ℤ) (h1 : -32768 ≤ n) (h2 : n < 32768) :
    toInt16 n = n := by
  unfold toInt16
  split <;> omega

lemma sample_mul_range (s : ℚ) (h1 : -1 ≤ s) (h2 : s ≤ 1) :
    -32767 ≤ s * 32767 ∧ s * 32767 ≤ 32767 := by
  constructor <;> nlinarith

lemma encodeSample_eq (s : ℚ) (h1 : -1 ≤ s) (h2 : s ≤ 1) :
    encodeSample s = truncQ (s * 32767) := by
  obtain ⟨hl, hr⟩ := sample_mul_range s h1 h2
  obtain ⟨tl, tr⟩ := truncQ_range (s * 32767) hl hr
  exact toInt16_eq_of_range _ (by omega) (by omega)

/-! ## Claims about the PCM codec -/

/-- C4: encoding stores `sample * 32767` through the ToInt16 conversion
with no clamping: the stored value always lies in the signed 16-bit
window and agrees with the truncation of `sample * 32767` modulo 2^16
(wraparound, not saturation), and for samples in [-1, 1] it is exactly
that truncation. -/
theorem encode_truncates_and_wraps (s : ℚ) :
    (-32768 ≤ encodeSample s ∧ encodeSample s < 32768) ∧
    encodeSample s % 65536 = truncQ (s * 32767) % 65536 ∧
    (-1 ≤ s → s ≤ 1 → encodeSample s = truncQ (s * 32767)) := by
  refine ⟨toInt16_range _, toInt16_emod _, fun h1 h2 => encodeSample_eq s h1 h2⟩

/-- Witness for C4 at the in-range sample 1/2 and, via the modulus
conjunct, at the out-of-range sample 2 (where the stored value wraps to
-2 instead of saturating). -/
theorem encode_truncates_and_wraps_witness :
    encodeSample (1/2) = 16383 ∧ encodeSample 2 = -2 := by
  constructor
  · have h := (encode_truncates_and_wraps (1/2)).2.2 (by norm_num) (by norm_num)
    rw [h]
    unfold truncQ
    norm_num
  · have h := (encode_truncates_and_wraps 2).2.1
    have hr := (encode_truncates_and_wraps 2).1
    have ht : truncQ ((2 : ℚ) * 32767) = 65534 := by
      unfold truncQ
      norm_num
    rw [ht] at h
    omega

/-- C5: for samples in [-1, 1], decoding the encoded sample reproduces
the original up to one least-significant bit of the signed 16-bit
representation. -/
theorem decode_encode_roundtrip (s : ℚ) (h1 : -1 ≤ s) (h2 : s ≤ 1) :
    |decodeSample (encodeSample s) - s| ≤ 1 / 32767 := by
  rw [encodeSample_eq s h1 h2]
  have key : decodeSample (truncQ (s * 32767)) - s =
      ((truncQ (s * 32767) : ℚ) - s * 32767) / 32767 := by
    unfold decodeSample
    field_simp
    ring
  rw [key, abs_div, abs_of_pos (show (0:ℚ) < 32767 by norm_num)]
  have hgt := truncQ_gt (s * 32767)
  have hlt := truncQ_lt (s * 32767)
  have habs : |(truncQ (s * 32767) : ℚ) - s * 32767| ≤ 1 :=
    abs_le.mpr ⟨by linarith, by linarith⟩
  exact (div_le_div_iff_of_pos_right (by norm_num)).mpr habs

/-- Witness for C5 at the sample 1/2. -/
theorem decode_encode_roundtrip_witness :
    |decodeSample (encodeSample (1/2)) - 1/2| ≤ 1 / 32767 :=
  decode_encode_roundtrip (1/2) (by norm_num) (by norm_num)

/-! ## Claims about the playback scheduler -/

lemma handle_audioMsg (clk d : ℚ) (s : InterviewS) :
    handleLiveMessage clk (audioMsg d) s =
      ⟨{ s with nextStartTime := max s.nextStartTime clk + d,
                sources := s.sources.insert s.nextId,
                nextId := s.nextId + 1 },
       some (s.nextId, max s.nextStartTime clk), []⟩ := rfl

lemma runAudioStarts_eq (s : InterviewS) (segs : List (ℚ × ℚ)) :
    runAudioStarts s segs = schedStarts s.nextStartTime segs := by
  induction segs generalizing s with
  | nil => rfl
  | cons a rest ih =>
    obtain ⟨clk, d⟩ := a
    simp only [runAudioStarts, handle_audioMsg, schedStarts, ih]
    rfl

lemma schedStarts_length (c : ℚ) (segs : List (ℚ × ℚ)) :
    (schedStarts c segs).length = segs.length := by
  induction segs generalizing c with
  | nil => rfl
  | cons a rest ih =>
    obtain ⟨clk, d⟩ := a
    simp [schedStarts, ih]

lemma schedStarts_ge_clock (c : ℚ) (segs : List (ℚ × ℚ)) (i : ℕ)
    (hi : i < segs.length) :
    (segs.getD i (0, 0)).1 ≤ (schedStarts c segs).getD i 0 := by
  induction segs generalizing c i with
  | nil => simp at hi
  | cons a rest ih =>
    obtain ⟨clk, d⟩ := a
    cases i with
    | zero => simp [schedStarts]
    | succ n =>
      simp only [schedStarts, List.getD_cons_succ]
      exact ih _ _ (by simpa using hi)

lemma schedStarts_succ (c : ℚ) (segs : List (ℚ × ℚ)) (i : ℕ)
    (hi : i + 1 < segs.length) :
    (schedStarts c segs).getD (i + 1) 0 =
      max ((schedStarts c segs).getD i 0 + (segs.getD i (0, 0)).2)
          (segs.getD (i + 1) (0, 0)).1 := by
  induction segs generalizing c i with
  | nil => simp at hi
  | cons a rest ih =>
    obtain ⟨clk, d⟩ := a
    cases i with
    | zero =>
      cases rest with
      | nil => simp at hi
      | cons b r =>
        obtain ⟨clk2, d2⟩ := b
        simp [schedStarts]
    | succ n =>
      simp only [schedStarts, List.getD_cons_succ]
      exact ih _ _ (by simpa using hi)

/-- C1: each audio chunk is scheduled at `max(PlaybackCursor, clock)` and
the cursor then advances by the duration; over any consecutive
uninterrupted sequence of chunks, every start time is at least the clock
time at scheduling, consecutive starts never overlap, and when chunks
arrive faster than real time (clock has not passed the cursor) playback
is gapless: start(i+1) = start(i) + d(i). -/
theorem scheduler_gapless_no_overlap (s : InterviewS) (segs : List (ℚ × ℚ)) :
    (∀ clk d, (handleLiveMessage clk (audioMsg d) s).scheduled =
        some (s.nextId, max s.nextStartTime clk) ∧
      (handleLiveMessage clk (audioMsg d) s).state.nextStartTime =
        max s.nextStartTime clk + d) ∧
    (runAudioStarts s segs).length = segs.length ∧
    (∀ i, i < segs.length →
      (segs.getD i (0, 0)).1 ≤ (runAudioStarts s segs).getD i 0) ∧
    (∀ i, i + 1 < segs.length →
      (runAudioStarts s segs).getD i 0 + (segs.getD i (0, 0)).2 ≤
        (runAudioStarts s segs).getD (i + 1) 0 ∧
      ((segs.getD (i + 1) (0, 0)).1 ≤
          (runAudioStarts s segs).getD i 0 + (segs.getD i (0, 0)).2 →
        (runAudioStarts s segs).getD (i + 1) 0 =
          (runAudioStarts s segs).getD i 0 + (segs.getD i (0, 0)).2)) := by
  refine ⟨fun clk d => by rw [handle_audioMsg]; exact ⟨rfl, rfl⟩, ?_, ?_, ?_⟩
  · rw [runAudioStarts_eq]; exact schedStarts_length _ _
  · intro i hi
    rw [runAudioStarts_eq]
    exact schedStarts_ge_clock _ _ _ hi
  · intro i hi
    rw [runAudioStarts_eq, schedStarts_succ _ _ _ hi]
    exact ⟨le_max_left _ _, fun hc => max_eq_left hc⟩

/-- Witness for C1: two chunks of duration 1 delivered at clock time 0
from a fresh session state are scheduled back to back at times 0 and 1. -/
theorem scheduler_gapless_no_overlap_witness :
    runAudioStarts ⟨"", "", false, [], 0, [], 0⟩ [(0, 1), (0, 1)] = [0, 1] ∧
    (runAudioStarts ⟨"", "", false, [], 0, [], 0⟩ [(0, 1), (0, 1)]).getD 1 0 =
      (runAudioStarts ⟨"", "", false, [], 0, [], 0⟩ [(0, 1), (0, 1)]).getD 0 0 +
        (([((0:ℚ), (1:ℚ)), (0, 1)].getD 0 (0, 0)).2) := by
  have h := (scheduler_gapless_no_overlap ⟨"", "", false, [], 0, [], 0⟩
      [(0, 1), (0, 1)]).2.2.2 0 (by norm_num)
  refine ⟨?_, h.2 (by norm_num [runAudioStarts_eq, schedStarts])⟩
  norm_num [runAudioStarts_eq, schedStarts]

/-- C2: an interruption stops every handle in the active source set,
leaves the set empty and resets the playback cursor to 0; any audio
chunk handled afterwards is scheduled at the then-current output clock
time. -/
theorem interruption_flushes_playback (clk : ℚ) (msg : LiveMsg) (s : InterviewS)
    (hint : msg.interrupted = true) :
    (∀ h, h ∈ s.sources → h ∈ (handleLiveMessage clk msg s).stopped) ∧
    (handleLiveMessage clk msg s).state.sources = [] ∧
    (handleLiveMessage clk msg s).state.nextStartTime = 0 ∧
    (∀ clk2 d2, 0 ≤ clk2 →
      (handleLiveMessage clk2 (audioMsg d2) (handleLiveMessage clk msg s).state).scheduled =
        some ((handleLiveMessage clk msg s).state.nextId, clk2)) := by
  obtain ⟨it, ot, tc, au, int⟩ := msg
  cases hint
  refine ⟨?_, ?_, ?_, ?_⟩
  · intro h hmem
    cases it <;> cases ot <;> cases tc <;> cases au <;>
      simp_all [handleLiveMessage, List.mem_insert_iff]
  · cases it <;> cases ot <;> cases tc <;> cases au <;> rfl
  · cases it <;> cases ot <;> cases tc <;> cases au <;> rfl
  · intro clk2 d2 hclk2
    rw [handle_audioMsg]
    have hz : (handleLiveMessage clk ⟨it, ot, tc, au, true⟩ s).state.nextStartTime = 0 := by
      cases it <;> cases ot <;> cases tc <;> cases au <;> rfl
    simp [hz, max_eq_right hclk2]

/-- Witness for C2: interrupting with handle 5 active stops it, empties
the set, zeroes the cursor, and a later chunk at clock time 2 is
scheduled at 2. -/
theorem interruption_flushes_playback_witness :
    5 ∈ (handleLiveMessage 0 ⟨none, none, false, none, true⟩
          ⟨"", "", false, [], 7, [5], 1⟩).stopped ∧
    (handleLiveMessage 0 ⟨none, none, false, none, true⟩
        ⟨"", "", false, [], 7, [5], 1⟩).state.sources = [] ∧
    (handleLiveMessage 0 ⟨none, none, false, none, true⟩
        ⟨"", "", false, [], 7, [5], 1⟩).state.nextStartTime = 0 ∧
    (handleLiveMessage 2 (audioMsg 1)
        (handleLiveMessage 0 ⟨none, none, false, none, true⟩
          ⟨"", "", false, [], 7, [5], 1⟩).state).scheduled =
      some ((handleLiveMessage 0 ⟨none, none, false, none, true⟩
        ⟨"", "", false, [], 7, [5], 1⟩).state.nextId, 2) := by
  have h := interruption_flushes_playback 0 ⟨none, none, false, none, true⟩
    ⟨"", "", false, [], 7, [5], 1⟩ rfl
  exact ⟨h.1 5 (by decide), h.2.1, h.2.2.1, h.2.2.2 2 1 (by norm_num)⟩

/-- C3: a turn-complete event appends exactly the trimmed non-empty
accumulators, the user entry before the model entry, skipping any
accumulator that trims to empty, and afterwards both accumulators are
empty and the talking indicator is cleared. -/
theorem turn_complete_flushes_accumulators (clk : ℚ) (msg : LiveMsg) (s : InterviewS)
    (h1 : msg.turnComplete = true) (h2 : msg.inputTranscription = none)
    (h3 : msg.outputTranscription = none) :
    (handleLiveMessage clk msg s).state.transcripts =
      s.transcripts ++
        (if jsTrim s.inputAcc ≠ "" then [⟨Speaker.user, jsTrim s.inputAcc⟩] else []) ++
        (if jsTrim s.outputAcc ≠ "" then [⟨Speaker.model, jsTrim s.outputAcc⟩] else []) ∧
    (handleLiveMessage clk msg s).state.inputAcc = "" ∧
    (handleLiveMessage clk msg s).state.outputAcc = "" ∧
    (handleLiveMessage clk msg s).state.isTalking = false := by
  obtain ⟨it, ot, tc, au, int⟩ := msg
  cases h1
  cases h2
  cases h3
  cases au <;> cases int <;>
    refine ⟨?_, by rfl, by rfl, by rfl⟩ <;>
    · by_cases hin : jsTrim s.inputAcc = "" <;>
        by_cases hout : jsTrim s.outputAcc = "" <;>
        simp [handleLiveMessage, hin, hout]

/-- Witness for C3: with input accumulator made of two spaces and output
accumulator "Hello.", the flush appends exactly one model entry and
clears everything. -/
theorem turn_complete_flushes_accumulators_witness :
    (handleLiveMessage 0 ⟨none, none, true, none, false⟩
        ⟨"  ", "Hello.", true, [], 0, [], 0⟩).state.transcripts =
      [⟨Speaker.model, "Hello."⟩] ∧
    (handleLiveMessage 0 ⟨none, none, true, none, false⟩
        ⟨"  ", "Hello.", true, [], 0, [], 0⟩).state.inputAcc = "" ∧
    (handleLiveMessage 0 ⟨none, none, true, none, false⟩
        ⟨"  ", "Hello.", true, [], 0, [], 0⟩).state.outputAcc = "" ∧
    (handleLiveMessage 0 ⟨none, none, true, none, false⟩
        ⟨"  ", "Hello.", true, [], 0, [], 0⟩).state.isTalking = false := by
  have h := turn_complete_flushes_accumulators 0 ⟨none, none, true, none, false⟩
    ⟨"  ", "Hello.", true, [], 0, [], 0⟩ rfl rfl rfl
  refine ⟨?_, h.2.1, h.2.2.1, h.2.2.2⟩
  rw [h.1]
  decide

/-- C9: on a message carrying both an audio chunk and the interrupted
flag, the chunk is scheduled first (at `max cursor clock`, under the
fresh handle id) and the interruption then stops it along with the rest
of the set, leaving the set empty and the cursor at 0. -/
theorem interruption_overrides_same_message_audio (clk d : ℚ) (msg : LiveMsg)
    (s : InterviewS) (ha : msg.audio = some d) (hi : msg.interrupted = true) :
    (handleLiveMessage clk msg s).scheduled =
      some (s.nextId, max s.nextStartTime clk) ∧
    s.nextId ∈ (handleLiveMessage clk msg s).stopped ∧
    (handleLiveMessage clk msg s).state.sources = [] ∧
    (handleLiveMessage clk msg s).state.nextStartTime = 0 := by
  obtain ⟨it, ot, tc, au, int⟩ := msg
  cases hi
  cases ha
  refine ⟨?_, ?_, ?_, ?_⟩ <;>
    cases it <;> cases ot <;> cases tc <;>
      simp [handleLiveMessage, List.mem_insert_iff]

/-- Witness for C9 on a fresh state at clock time 0: the chunk is
scheduled under handle 0 at time 0, then stopped, and the set and cursor
are flushed. -/
theorem interruption_overrides_same_message_audio_witness :
    (handleLiveMessage 0 ⟨none, none, false, some 1, true⟩
        ⟨"", "", false, [], 0, [], 0⟩).scheduled = some (0, max 0 0) ∧
    0 ∈ (handleLiveMessage 0 ⟨none, none, false, some 1, true⟩
        ⟨"", "", false, [], 0, [], 0⟩).stopped ∧
    (handleLiveMessage 0 ⟨none, none, false, some 1, true⟩
        ⟨"", "", false, [], 0, [], 0⟩).state.sources = [] ∧
    (handleLiveMessage 0 ⟨none, none, false, some 1, true⟩
        ⟨"", "", false, [], 0, [], 0⟩).state.nextStartTime = 0 :=
  interruption_overrides_same_message_audio 0 1 ⟨none, none, false, some 1, true⟩
    ⟨"", "", false, [], 0, [], 0⟩ rfl rfl

/-! ## Claims about the active source set lifecycle -/

lemma removeCount_cons (h : Nat) (s : List Nat) (e : SourceEvent)
    (es : List SourceEvent) :
    removeCount h s (e :: es) =
      (if h ∈ s ∧ h ∉ stepSources s e then 1 else 0) +
        removeCount h (stepSources s e) es := rfl

lemma removeCount_zero (h : Nat) (s : List Nat) (t : List SourceEvent)
    (hs : h ∉ s) (ht : SourceEvent.schedule h ∉ t) :
    removeCount h s t = 0 ∧ h ∉ t.foldl stepSources s := by
  induction t generalizing s with
  | nil => exact ⟨rfl, hs⟩
  | cons e es ih =>
    have hne : e ≠ SourceEvent.schedule h := fun hc => ht (by simp [hc])
    have hts : SourceEvent.schedule h ∉ es := fun hc => ht (by simp [hc])
    have hnext : h ∉ stepSources s e := by
      cases e with
      | schedule h2 =>
        have : h2 ≠ h := fun hc => hne (by rw [hc])
        simp [stepSources, List.mem_insert_iff, hs, Ne.symm this]
      | ended h2 => simp [stepSources, List.mem_filter, hs]
      | interrupt => simp [stepSources]
      | teardown => simp [stepSources]
    obtain ⟨hc1, hc2⟩ := ih (stepSources s e) hnext hts
    refine ⟨?_, by simpa using hc2⟩
    rw [removeCount_cons, hc1, if_neg (by simp [hs])]

lemma removeCount_one (h : Nat) (s : List Nat) (t : List SourceEvent)
    (hs : h ∈ s) (ht : SourceEvent.schedule h ∉ t)
    (hstop : ∃ e ∈ t, isStopper h e) :
    removeCount h s t = 1 := by
  induction t generalizing s with
  | nil => simp at hstop
  | cons e es ih =>
    have hts : SourceEvent.schedule h ∉ es := fun hc => ht (by simp [hc])
    by_cases hrem : h ∈ stepSources s e
    · have hstop2 : ∃ e2 ∈ es, isStopper h e2 := by
        rcases hstop with ⟨e2, he2, hst2⟩
        rcases List.mem_cons.mp he2 with rfl | hmem
        · exfalso
          rcases hst2 with rfl | rfl | rfl <;>
            simp [stepSources, List.mem_filter] at hrem
        · exact ⟨e2, hmem, hst2⟩
      rw [removeCount_cons, if_neg (by simp [hrem]), ih _ hrem hts hstop2]
    · rw [removeCount_cons, if_pos ⟨hs, hrem⟩,
        (removeCount_zero h _ es hrem hts).1]

lemma foldl_stepSources_not_mem (h : Nat) (s : List Nat) (t : List SourceEvent)
    (hs : h ∉ s) (ht : SourceEvent.schedule h ∉ t) :
    h ∉ t.foldl stepSources s :=
  (removeCount_zero h s t hs ht).2

lemma removeCount_append (h : Nat) (s : List Nat) (t1 t2 : List SourceEvent) :
    removeCount h s (t1 ++ t2) =
      removeCount h s t1 + removeCount h (t1.foldl stepSources s) t2 := by
  induction t1 generalizing s with
  | nil => simp [removeCount]
  | cons e es ih =>
    rw [List.cons_append, removeCount_cons, removeCount_cons, ih]
    simp [Nat.add_assoc]

/-- C8: in a session trace in which handle `h` is scheduled once and is
afterwards either naturally completed or covered by an interruption or
teardown, `h` is removed from the active source set exactly once — by
whichever of those events comes first — never twice and never zero
times. -/
theorem source_removed_exactly_once (h : Nat) (t1 t2 : List SourceEvent)
    (h1 : SourceEvent.schedule h ∉ t1) (h2 : SourceEvent.schedule h ∉ t2)
    (hstop : ∃ e ∈ t2, isStopper h e) :
    removeCount h [] (t1 ++ SourceEvent.schedule h :: t2) = 1 := by
  have hnotmem : h ∉ t1.foldl stepSources [] :=
    foldl_stepSources_not_mem h [] t1 (by simp) h1
  rw [removeCount_append, (removeCount_zero h [] t1 (by simp) h1).1]
  rw [removeCount_cons]
  have hmem : h ∈ stepSources (t1.foldl stepSources []) (SourceEvent.schedule h) := by
    simp [stepSources, List.mem_insert_iff]
  rw [if_neg (by simp [hnotmem]),
    removeCount_one h _ t2 hmem h2 hstop]

/-- Witness for C8: a handle scheduled and then naturally completed is
removed exactly once. -/
theorem source_removed_exactly_once_witness :
    removeCount 0 [] [SourceEvent.schedule 0, SourceEvent.ended 0] = 1 := by
  have h := source_removed_exactly_once 0 [] [SourceEvent.ended 0]
    (by decide) (by decide) (by decide)
  simpa using h

/-! ## Claims about the interview session controller -/

/-- C6 counterexample: with valid fields and the microphone denied,
`startInterview` does reach the `in_progress` state (it is assigned
optimistically before the permission request), refuting the claim that
the controller never reaches `in_progress`; the streaming connect call
is nevertheless not issued. -/
theorem mic_denied_reaches_in_progress :
    InterviewState.in_progress ∈ (startInterview "a" "b" false).visited ∧
    (startInterview "a" "b" false).connectAttempted = false := by
  decide

/-- C6 amended: when the microphone is denied during setup with valid
fields, the controller transiently passes through `in_progress` but ends
in the `error` state with a user-visible message, no transport connect
call is issued and no session is created. -/
theorem mic_denied_ends_in_error (role desc : String)
    (hr : jsTrim role ≠ "") (hd : jsTrim desc ≠ "") :
    (startInterview role desc false).final = InterviewState.error ∧
    (startInterview role desc false).errorMsg =
      some "Could not access microphone. Please check permissions." ∧
    (startInterview role desc false).connectAttempted = false ∧
    (startInterview role desc false).sessionCreated = false ∧
    (startInterview role desc false).visited =
      [InterviewState.in_progress, InterviewState.error] := by
  simp [startInterview, hr, hd]

/-- Witness for the amended C6 at role "a" and description "b". -/
theorem mic_denied_ends_in_error_witness :
    (startInterview "a" "b" false).final = InterviewState.error ∧
    (startInterview "a" "b" false).connectAttempted = false :=
  ⟨(mic_denied_ends_in_error "a" "b" (by decide) (by decide)).1,
   (mic_denied_ends_in_error "a" "b" (by decide) (by decide)).2.2.1⟩

/-- C7: the setup-to-in_progress transition happens only when both the
role and the description are non-empty after trimming; if either trims
to empty the controller stays in `setup`, surfaces the validation error
and creates no session. -/
theorem setup_transition_guard (role desc : String) (mic : Bool) :
    ((jsTrim role = "" ∨ jsTrim desc = "") →
      startInterview role desc mic =
        ⟨[], InterviewState.setup,
         some "Please fill in both job role and description.", false, false⟩) ∧
    (InterviewState.in_progress ∈ (startInterview role desc mic).visited →
      jsTrim role ≠ "" ∧ jsTrim desc ≠ "") ∧
    ((startInterview role desc mic).final = InterviewState.in_progress →
      jsTrim role ≠ "" ∧ jsTrim desc ≠ "") := by
  by_cases hempty : jsTrim role = "" ∨ jsTrim desc = ""
  · refine ⟨fun _ => by simp [startInterview, hempty], ?_, ?_⟩ <;>
      · intro hmem
        simp [startInterview, hempty] at hmem
  · push_neg at hempty
    refine ⟨fun hc => absurd hc (by simpa using hempty), ?_, ?_⟩ <;>
      exact fun _ => hempty

/-- Witness for C7: an all-whitespace role stays in `setup` with the
validation error and no session. -/
theorem setup_transition_guard_witness :
    startInterview "  " "desc" true =
      ⟨[], InterviewState.setup,
       some "Please fill in both job role and description.", false, false⟩ :=
  (setup_transition_guard "  " "desc" true).1 (Or.inl (by decide))

/-! ## Claims about the chat component -/

lemma getD_mapIdx {α : Type} (l : List α) (f : ℕ → α → α) (i : ℕ) (d : α)
    (hi : i < l.length) :
    (l.mapIdx f).getD i d = f i (l.getD i d) := by
  induction l generalizing f i with
  | nil => simp at hi
  | cons a t ih =>
    rw [List.mapIdx_cons]
    cases i with
    | zero => rfl
    | succ n =>
      rw [List.getD_cons_succ, List.getD_cons_succ]
      exact ih _ _ (by simpa using hi)

/-- C10: `sendMessage` with empty-after-trim input or no chat session
changes nothing and issues no request; otherwise it appends exactly the
user message followed by an initially empty bot message, clears the
input and raises the loading flag; and each streamed chunk rewrites only
the final message of the list, leaving every earlier message unchanged. -/
theorem sendMessage_appends_and_streams (s : ChatS) :
    ((jsTrim s.input = "" ∨ s.chatExists = false) → sendMessage s = ⟨s, false⟩) ∧
    (jsTrim s.input ≠ "" → s.chatExists = true →
      (sendMessage s).state.messages =
        s.messages ++ [⟨Sender.user, s.input, []⟩, ⟨Sender.bot, "", []⟩] ∧
      (sendMessage s).state.input = "" ∧
      (sendMessage s).state.isLoading = true ∧
      (sendMessage s).requestIssued = true) ∧
    (∀ (msgs : List ChatMessage) (t : String) (src : List GroundingSource) (i : ℕ),
      i + 1 < msgs.length →
      (applyChunk msgs t src).getD i ⟨Sender.user, "", []⟩ =
        msgs.getD i ⟨Sender.user, "", []⟩) ∧
    (∀ (msgs : List ChatMessage) (t : String) (src : List GroundingSource),
      msgs ≠ [] →
      (applyChunk msgs t src).getD (msgs.length - 1) ⟨Sender.user, "", []⟩ =
        { msgs.getD (msgs.length - 1) ⟨Sender.user, "", []⟩ with
            text := t, sources := src }) := by
  refine ⟨?_, ?_, ?_, ?_⟩
  · intro hbail
    simp [sendMessage, hbail]
  · intro hin hchat
    rw [sendMessage, if_neg (by simp [hin, hchat])]
    exact ⟨rfl, rfl, rfl, rfl⟩
  · intro msgs t src i hi
    rw [applyChunk, getD_mapIdx _ _ _ _ (by omega), if_neg (by omega)]
  · intro msgs t src hne
    have hlen : 0 < msgs.length := List.length_pos.mpr hne
    rw [applyChunk, getD_mapIdx _ _ _ _ (by omega), if_pos rfl]

/-- Witness for C10: whitespace input leaves the state untouched, a real
message appends the user/bot pair, and a chunk update rewrites only the
last entry. -/
theorem sendMessage_appends_and_streams_witness :
    sendMessage ⟨true, [], "  ", false⟩ = ⟨⟨true, [], "  ", false⟩, false⟩ ∧
    (sendMessage ⟨true, [], "hi", false⟩).state.messages =
      [⟨Sender.user, "hi", []⟩, ⟨Sender.bot, "", []⟩] ∧
    (applyChunk [⟨Sender.user, "hi", []⟩, ⟨Sender.bot, "", []⟩] "Hey" []).getD 0
        ⟨Sender.user, "", []⟩ = ⟨Sender.user, "hi", []⟩ ∧
    (applyChunk [⟨Sender.user, "hi", []⟩, ⟨Sender.bot, "", []⟩] "Hey" []).getD 1
        ⟨Sender.user, "", []⟩ = ⟨Sender.bot, "Hey", []⟩ := by
  refine ⟨(sendMessage_appends_and_streams ⟨true, [], "  ", false⟩).1
      (Or.inl (by decide)), ?_, ?_, ?_⟩
  · have h := ((sendMessage_appends_and_streams ⟨true, [], "hi", false⟩).2.1
      (by decide) rfl).1
    rw [h]
    decide
  · have h := (sendMessage_appends_and_streams ⟨true, [], "hi", false⟩).2.2.1
      [⟨Sender.user, "hi", []⟩, ⟨Sender.bot, "", []⟩] "Hey" [] 0 (by decide)
    rw [h]
    decide
  · have h := (sendMessage_appends_and_streams ⟨true, [], "hi", false⟩).2.2.2
      [⟨Sender.user, "hi", []⟩, ⟨Sender.bot, "", []⟩] "Hey" [] (by decide)
    simpa using h
